import Mathlib

/-!
Verification of the content-addressed deduplication and tiered
access-control engine of the knowledge-base document manager, together
with the file-upload front-end.

The engine itself (DocumentService / FileService) is documented in
`MD5_DUPLICATION_README.md` and `PRIVATE_FILE_LIMIT_SUMMARY.md`; its
operational behaviour is embedded below following the specification
(sections 3 and 4).  The front-end visibility handling is embedded
directly from `web/src/components/file-upload-modal/index.tsx` and
`web/src/hooks/document-hooks.ts`.
-/

namespace DedupEngine

/-- User roles: `admin` corresponds to `is_superuser = true`,
`user` to an ordinary user. -/
inductive Role where
  | admin
  | user
deriving DecidableEq, Repr

/-- Document visibility.  `pub` stands for the source's `'public'`,
`priv` for `'private'` (both are Lean keywords). -/
inductive Visibility where
  | pub
  | priv
deriving DecidableEq, Repr

/-- Modelled from the spec: the Document record of section 3 —
`{id, knowledgeBaseId, ownerId, contentHash, visibility,
authorizedUsers}` (the Python model keeps `authorized_users` inside
`meta_fields`; `createdAt` plays no role in any claim and is omitted). -/
structure Document where
  id : Nat
  knowledgeBaseId : Nat
  ownerId : Nat
  contentHash : Nat
  visibility : Visibility
  authorizedUsers : List Nat
deriving DecidableEq, Repr

/-- Modelled from the spec: the User record of section 3. -/
structure User where
  id : Nat
  role : Role
deriving DecidableEq, Repr

/-- Modelled from the spec (section 4.2) and the visibility rules of
`MD5_DUPLICATION_README.md` (文档可见性判断): a document is visible to a
user iff the user is a superuser, the document is public, the user owns
it, or the user is in its authorized list.  A pure function. -/
def isVisible (doc : Document) (user : User) : Bool :=
  user.role == Role.admin
    || doc.visibility == Visibility.pub
    || doc.ownerId == user.id
    || doc.authorizedUsers.contains user.id

/-- Whether a document is counted against `uid`'s private-file quota:
it is private and the user owns it or is authorized on it. -/
def countsFor (doc : Document) (uid : Nat) : Bool :=
  doc.visibility == Visibility.priv
    && (doc.ownerId == uid || doc.authorizedUsers.contains uid)

/-- Modelled from the spec (section 3) and
`DocumentService.get_user_private_file_count`: the derived count of
private documents owned by or authorized to `uid`. -/
def privateFileCount (docs : List Document) (uid : Nat) : Nat :=
  docs.countP (fun d => countsFor d uid)

/-- Modelled from the spec (section 4.3) and
`DocumentService.find_duplicates_by_md5`: all documents of the
knowledge base sharing the fingerprint. -/
def findDuplicates (docs : List Document) (hash kb : Nat) : List Document :=
  docs.filter (fun d => d.knowledgeBaseId == kb && d.contentHash == hash)

/-- The three-way classification of a duplicate lookup (section 4.3). -/
inductive MatchResult where
  | NoMatch
  | VisibleMatch (d : Document)
  | HiddenMatch (d : Document)
deriving DecidableEq, Repr

/-- Modelled from the spec (section 4.3) and
`DocumentService.check_file_duplication`: classify the duplicates of a
fingerprint for the requesting user; any visible match takes priority
over any hidden match. -/
def resolveDuplicate (docs : List Document) (hash kb : Nat) (u : User) :
    MatchResult :=
  match (findDuplicates docs hash kb).find? (fun d => isVisible d u) with
  | some v => MatchResult.VisibleMatch v
  | none =>
    match findDuplicates docs hash kb with
    | [] => MatchResult.NoMatch
    | d :: _ => MatchResult.HiddenMatch d

/-- Result of the quota admission check (section 4.4). -/
inductive ReserveResult where
  | Admitted
  | Denied
deriving DecidableEq, Repr

/-- Modelled from the spec (section 4.4) and the core limit check of
`PRIVATE_FILE_LIMIT_SUMMARY.md`: admit `n` more private files for `uid`
iff the resulting count stays within `maxP`
(`MAX_PRIVATE_FILES_PER_USER`). -/
def tryReserve (maxP : Nat) (docs : List Document) (uid n : Nat) :
    ReserveResult :=
  if privateFileCount docs uid + n ≤ maxP then ReserveResult.Admitted
  else ReserveResult.Denied

/-- Result of an access grant (section 4.5). -/
inductive GrantResult where
  | Granted
  | AlreadyAuthorized
  | DeniedQuota
deriving DecidableEq, Repr

/-- Modelled from the spec and
`DocumentService.grant_document_access(doc_id, user_id)`: add `uid` to
the authorized list of the document with id `docId`. -/
def addAuthorized (docs : List Document) (docId uid : Nat) :
    List Document :=
  docs.map (fun d =>
    if d.id == docId then
      { d with authorizedUsers := uid :: d.authorizedUsers }
    else d)

/-- Modelled from the spec (section 4.5): idempotent access grant.  If
the user already sees the document, return `AlreadyAuthorized` with no
mutation; otherwise reserve one quota slot and, on admission, add the
user to the authorized list in the same atomic unit. -/
def grant (maxP : Nat) (docs : List Document) (doc : Document)
    (u : User) : GrantResult × List Document :=
  if isVisible doc u then (GrantResult.AlreadyAuthorized, docs)
  else
    match tryReserve maxP docs u.id 1 with
    | ReserveResult.Admitted =>
        (GrantResult.Granted, addAuthorized docs doc.id u.id)
    | ReserveResult.Denied => (GrantResult.DeniedQuota, docs)

/-- The engine's error taxonomy (section 7), restricted to the terminal
policy errors the claims mention. -/
inductive ErrorKind where
  | DuplicateVisibleConflict
  | QuotaExceeded
deriving DecidableEq, Repr

/-- Modelled from the spec (section 6): the orchestrator's terminal
verdict. -/
inductive Verdict where
  | Create (d : Document)
  | ReuseExisting (d : Document)
  | Reject (e : ErrorKind)
deriving DecidableEq, Repr

/-- An upload request entering the orchestrator (section 4.6):
uploader, knowledge base, content fingerprint, requested visibility,
and the admin's force-confirmation flag for duplicates. -/
structure UploadRequest where
  uploader : User
  knowledgeBaseId : Nat
  contentHash : Nat
  requestedVisibility : Visibility
  forceConfirm : Bool
deriving DecidableEq, Repr

/-- The document record a `Create` verdict instructs the pipeline to
persist. -/
def mkDoc (newId : Nat) (req : UploadRequest) (vis : Visibility) :
    Document :=
  { id := newId
    knowledgeBaseId := req.knowledgeBaseId
    ownerId := req.uploader.id
    contentHash := req.contentHash
    visibility := vis
    authorizedUsers := [] }

/-- Modelled from the spec (section 4.6, transition table) and
`FileService.upload_document`: the upload decision state machine.
Admins create on `NoMatch` and may force-create past a detected
duplicate; ordinary users create a private document on `NoMatch` under
quota, are rejected with `DuplicateVisibleConflict` on a visible match,
and on a hidden match are granted access to the existing copy (quota
permitting).  Returns the verdict and the updated document table. -/
def upload (maxP : Nat) (docs : List Document) (newId : Nat)
    (req : UploadRequest) : Verdict × List Document :=
  match req.uploader.role,
        resolveDuplicate docs req.contentHash req.knowledgeBaseId
          req.uploader with
  | Role.admin, MatchResult.NoMatch =>
      (Verdict.Create (mkDoc newId req req.requestedVisibility),
       mkDoc newId req req.requestedVisibility :: docs)
  | Role.admin, MatchResult.VisibleMatch d =>
      if req.forceConfirm then
        (Verdict.Create (mkDoc newId req req.requestedVisibility),
         mkDoc newId req req.requestedVisibility :: docs)
      else (Verdict.ReuseExisting d, docs)
  | Role.admin, MatchResult.HiddenMatch d =>
      if req.forceConfirm then
        (Verdict.Create (mkDoc newId req req.requestedVisibility),
         mkDoc newId req req.requestedVisibility :: docs)
      else (Verdict.ReuseExisting d, docs)
  | Role.user, MatchResult.NoMatch =>
      match tryReserve maxP docs req.uploader.id 1 with
      | ReserveResult.Admitted =>
          (Verdict.Create (mkDoc newId req Visibility.priv),
           mkDoc newId req Visibility.priv :: docs)
      | ReserveResult.Denied =>
          (Verdict.Reject ErrorKind.QuotaExceeded, docs)
  | Role.user, MatchResult.VisibleMatch _ =>
      (Verdict.Reject ErrorKind.DuplicateVisibleConflict, docs)
  | Role.user, MatchResult.HiddenMatch d =>
      match grant maxP docs d req.uploader with
      | (GrantResult.Granted, docs1) => (Verdict.ReuseExisting d, docs1)
      | (GrantResult.AlreadyAuthorized, docs1) =>
          (Verdict.ReuseExisting d, docs1)
      | (GrantResult.DeniedQuota, docs1) =>
          (Verdict.Reject ErrorKind.QuotaExceeded, docs1)

/-- Modelled from the spec (section 5) and the check-then-act pattern of
`PRIVATE_FILE_LIMIT_SUMMARY.md`: a batch of uploads by one user,
processed one at a time — section 5 mandates that the quota check and
its consuming mutation are one atomic unit, so concurrent executions
linearize into some arrival order, which this function ranges over.
Each request gets a fresh document id from the counter. -/
def uploadAll (maxP : Nat) (u : User) (kb : Nat) (hashes : List Nat)
    (docs : List Document) (nextId : Nat) : List Verdict × List Document :=
  match hashes with
  | [] => ([], docs)
  | h :: rest =>
    let step := upload maxP docs nextId
      { uploader := u, knowledgeBaseId := kb, contentHash := h,
        requestedVisibility := Visibility.priv, forceConfirm := false }
    let tail := uploadAll maxP u kb rest step.2 (nextId + 1)
    (step.1 :: tail.1, tail.2)

/-- Whether a verdict created a new document. -/
def isCreate : Verdict → Bool
  | Verdict.Create _ => true
  | _ => false

/-- Whether a verdict rejected the upload for exceeding the
private-file quota. -/
def isQuotaReject : Verdict → Bool
  | Verdict.Reject ErrorKind.QuotaExceeded => true
  | _ => false

/-- The states reachable through the engine, starting from an empty
document table.  `roleOf` fixes each user id's tier (section 3: roles
are read-only to the engine).  A step is either a full upload decision
(with a fresh document id) or a standalone access grant on an existing
document; when `allowForce` is false the admin forced-duplicate
confirmation is never exercised. -/
inductive Reachable (maxP : Nat) (roleOf : Nat → Role)
    (allowForce : Bool) : List Document → Prop where
  | init : Reachable maxP roleOf allowForce []
  | step_upload (docs : List Document) (uid kb hash : Nat)
      (vis : Visibility) (force : Bool) (newId : Nat)
      (hfresh : ∀ d ∈ docs, d.id ≠ newId)
      (hforce : force = true → allowForce = true)
      (h : Reachable maxP roleOf allowForce docs) :
      Reachable maxP roleOf allowForce
        (upload maxP docs newId
          { uploader := { id := uid, role := roleOf uid },
            knowledgeBaseId := kb, contentHash := hash,
            requestedVisibility := vis, forceConfirm := force }).2
  | step_grant (docs : List Document) (doc : Document) (uid : Nat)
      (hdoc : doc ∈ docs)
      (h : Reachable maxP roleOf allowForce docs) :
      Reachable maxP roleOf allowForce
        (grant maxP docs doc { id := uid, role := roleOf uid }).2

end DedupEngine

namespace DocumentSchema

/-- A storage-layer index declaration, as written in a migration. -/
structure SqlIndexDef where
  name : String
  table : String
  columns : List String
  isUnique : Bool
deriving DecidableEq, Repr

/-- The index the migration in `MD5_DUPLICATION_README.md` creates:
`CREATE INDEX idx_document_md5_hash ON document(md5_hash)` — a plain
(non-unique) index on `md5_hash` alone. -/
def idx_document_md5_hash : SqlIndexDef :=
  { name := "idx_document_md5_hash"
    table := "document"
    columns := ["md5_hash"]
    isUnique := false }

/-- All storage-layer indexes and constraints the migration of
`MD5_DUPLICATION_README.md` adds to the `document` table. -/
def documentMigrationIndexes : List SqlIndexDef := [idx_document_md5_hash]

/-- Whether an index declaration enforces uniqueness over exactly the
given column list. -/
def enforcesUniqueOn (idx : SqlIndexDef) (cols : List String) : Bool :=
  idx.isUnique && idx.columns == cols

end DocumentSchema

namespace UploadFrontend

open DedupEngine

/-- From `file-upload-modal/index.tsx`: the initial value of the
`fileVisibility` state, `useState(isAdmin ? 'private' : 'private')`. -/
def initialFileVisibility (isAdmin : Bool) : Visibility :=
  if isAdmin then Visibility.priv else Visibility.priv

/-- From `file-upload-modal/index.tsx`: the `public` radio carries
`disabled={!isAdmin}`; the `private` radio is always enabled. -/
def publicOptionDisabled (isAdmin : Bool) : Bool := !isAdmin

/-- A user interaction with the visibility `Radio.Group`: clicking the
radio for `v`.  A disabled radio fires no `onChange`, so selecting
`public` while it is disabled leaves the state unchanged. -/
def selectVisibility (isAdmin : Bool) (cur : Visibility)
    (v : Visibility) : Visibility :=
  match v with
  | Visibility.priv => Visibility.priv
  | Visibility.pub =>
      if publicOptionDisabled isAdmin then cur else Visibility.pub

/-- The `fileVisibility` state after an arbitrary sequence of radio
clicks, starting from the modal's initial state. -/
def modalVisibilityAfter (isAdmin : Bool) (clicks : List Visibility) :
    Visibility :=
  clicks.foldl (selectVisibility isAdmin) (initialFileVisibility isAdmin)

/-- From `document-hooks.ts` (`useUploadNextDocument`): the mutation
destructures `visibility = 'private'`, substituting `'private'`
whenever the caller supplies no visibility value. -/
def uploadVisibility (v : Option Visibility) : Visibility :=
  v.getD Visibility.priv

end UploadFrontend

namespace DedupEngine

lemma countsFor_update_self (d : Document) (uid : Nat) :
    countsFor { d with authorizedUsers := uid :: d.authorizedUsers } uid =
      (d.visibility == Visibility.priv) := by
  simp [countsFor, List.contains_cons]

lemma countsFor_update_other (d : Document) (u uid : Nat)
    (hne : u ≠ uid) :
    countsFor { d with authorizedUsers := u :: d.authorizedUsers } uid =
      countsFor d uid := by
  simp only [countsFor, List.contains_cons]
  have huid : (uid == u) = false := by simp [Ne.symm hne]
  rw [huid]
  simp

lemma privateFileCount_nil (uid : Nat) : privateFileCount [] uid = 0 := rfl

lemma privateFileCount_cons (d : Document) (docs : List Document)
    (uid : Nat) :
    privateFileCount (d :: docs) uid =
      privateFileCount docs uid + (if countsFor d uid then 1 else 0) :=
  List.countP_cons _ _ _

lemma countsFor_mkDoc (newId : Nat) (req : UploadRequest)
    (vis : Visibility) (uid : Nat) :
    countsFor (mkDoc newId req vis) uid =
      ((vis == Visibility.priv) && (req.uploader.id == uid)) := by
  simp [countsFor, mkDoc]

lemma addAuthorized_nil (docId uid : Nat) :
    addAuthorized [] docId uid = [] := rfl

lemma addAuthorized_length (docs : List Document) (docId uid : Nat) :
    (addAuthorized docs docId uid).length = docs.length :=
  List.length_map _ _

lemma addAuthorized_of_not_mem (docs : List Document) (docId uid : Nat)
    (h : ∀ d ∈ docs, d.id ≠ docId) :
    addAuthorized docs docId uid = docs := by
  induction docs with
  | nil => rfl
  | cons d rest ih =>
    have hd : (d.id == docId) = false := by
      simp [h d (List.mem_cons_self d rest)]
    simp only [addAuthorized, List.map_cons, hd, Bool.false_eq_true,
      if_false]
    have := ih (fun x hx => h x (List.mem_cons_of_mem d hx))
    simpa [addAuthorized] using this

lemma addAuthorized_map_id (docs : List Document) (docId uid : Nat) :
    (addAuthorized docs docId uid).map Document.id =
      docs.map Document.id := by
  unfold addAuthorized
  rw [List.map_map]
  apply List.map_congr_left
  intro d _
  by_cases h : (d.id == docId) = true
  · rw [Function.comp_apply, if_pos h]
  · rw [Function.comp_apply, if_neg h]

lemma addAuthorized_fields (d : Document) (docId uid : Nat) :
    ((if d.id == docId then
        { d with authorizedUsers := uid :: d.authorizedUsers }
      else d) : Document).knowledgeBaseId = d.knowledgeBaseId ∧
    ((if d.id == docId then
        { d with authorizedUsers := uid :: d.authorizedUsers }
      else d) : Document).contentHash = d.contentHash := by
  by_cases h : (d.id == docId) = true <;> simp [h]

lemma privateFileCount_addAuthorized_other (docs : List Document)
    (docId u uid : Nat) (hne : u ≠ uid) :
    privateFileCount (addAuthorized docs docId u) uid =
      privateFileCount docs uid := by
  induction docs with
  | nil => rfl
  | cons d rest ih =>
    simp only [addAuthorized, List.map_cons] at *
    rw [privateFileCount_cons, privateFileCount_cons]
    have hcf : countsFor
        (if d.id == docId then
          { d with authorizedUsers := u :: d.authorizedUsers }
        else d) uid = countsFor d uid := by
      by_cases h : (d.id == docId) = true
      · rw [if_pos h]; exact countsFor_update_other d u uid hne
      · rw [if_neg h]
    rw [hcf, ih]

lemma privateFileCount_addAuthorized_self (docs : List Document)
    (doc : Document) (u : Nat)
    (hnd : (docs.map Document.id).Nodup) (hmem : doc ∈ docs)
    (hpriv : doc.visibility = Visibility.priv)
    (hown : doc.ownerId ≠ u)
    (hauth : doc.authorizedUsers.contains u = false) :
    privateFileCount (addAuthorized docs doc.id u) u =
      privateFileCount docs u + 1 := by
  induction docs with
  | nil => cases hmem
  | cons d rest ih =>
    simp only [List.map_cons, List.nodup_cons] at hnd
    obtain ⟨hdnotin, hndrest⟩ := hnd
    rcases List.mem_cons.mp hmem with heq | hmemrest
    · subst heq
      have hrest : ∀ x ∈ rest, x.id ≠ doc.id := by
        intro x hx hxid
        exact hdnotin (hxid ▸ List.mem_map_of_mem Document.id hx)
      have hmap : addAuthorized (doc :: rest) doc.id u =
          { doc with authorizedUsers := u :: doc.authorizedUsers } ::
            addAuthorized rest doc.id u := by
        simp [addAuthorized]
      rw [hmap, addAuthorized_of_not_mem rest doc.id u hrest]
      rw [privateFileCount_cons, privateFileCount_cons]
      rw [countsFor_update_self]
      have hnotmem : u ∉ doc.authorizedUsers := by
        intro hm
        have : doc.authorizedUsers.contains u = true := List.elem_iff.mpr hm
        rw [this] at hauth
        cases hauth
      have hcf : countsFor doc u = false := by
        simp [countsFor, hpriv, hown, hnotmem]
      rw [hcf, hpriv]
      simp
    · have hne : d.id ≠ doc.id := by
        intro hid
        exact hdnotin (hid ▸ List.mem_map_of_mem Document.id hmemrest)
      have hmap : addAuthorized (d :: rest) doc.id u =
          d :: addAuthorized rest doc.id u := by
        simp [addAuthorized, hne]
      rw [hmap, privateFileCount_cons, privateFileCount_cons]
      rw [ih hndrest hmemrest]
      omega

lemma isVisible_false_elim (d : Document) (u : User)
    (h : isVisible d u = false) :
    u.role ≠ Role.admin ∧ d.visibility = Visibility.priv ∧
      d.ownerId ≠ u.id ∧ d.authorizedUsers.contains u.id = false := by
  simp only [isVisible, Bool.or_eq_false_iff, beq_eq_false_iff_ne] at h
  obtain ⟨⟨⟨h1, h2⟩, h3⟩, h4⟩ := h
  refine ⟨h1, ?_, h3, h4⟩
  cases hv : d.visibility
  · exact absurd hv h2
  · rfl

lemma mem_findDuplicates (docs : List Document) (hash kb : Nat)
    (d : Document) (h : d ∈ findDuplicates docs hash kb) :
    d ∈ docs ∧ d.knowledgeBaseId = kb ∧ d.contentHash = hash := by
  simp only [findDuplicates, List.mem_filter, Bool.and_eq_true,
    beq_iff_eq] at h
  exact ⟨h.1, h.2.1, h.2.2⟩

lemma resolve_of_findDuplicates_nil (docs : List Document)
    (hash kb : Nat) (u : User) (h : findDuplicates docs hash kb = []) :
    resolveDuplicate docs hash kb u = MatchResult.NoMatch := by
  unfold resolveDuplicate
  rw [h]
  rfl

lemma resolve_hiddenMatch_elim (docs : List Document) (hash kb : Nat)
    (u : User) (d : Document)
    (h : resolveDuplicate docs hash kb u = MatchResult.HiddenMatch d) :
    d ∈ docs ∧ d.knowledgeBaseId = kb ∧ d.contentHash = hash ∧
      isVisible d u = false := by
  unfold resolveDuplicate at h
  rcases hfind : (findDuplicates docs hash kb).find?
      (fun x => isVisible x u) with _ | v
  · rw [hfind] at h
    rcases hds : findDuplicates docs hash kb with _ | ⟨d0, rest⟩
    · rw [hds] at h; cases h
    · rw [hds] at h
      simp only [MatchResult.HiddenMatch.injEq] at h
      rw [← h]
      have hmem : d0 ∈ findDuplicates docs hash kb := by
        rw [hds]; exact List.mem_cons_self d0 rest
      have hnv := List.find?_eq_none.mp hfind d0 hmem
      obtain ⟨h1, h2, h3⟩ := mem_findDuplicates docs hash kb d0 hmem
      exact ⟨h1, h2, h3, by simpa using hnv⟩
  · rw [hfind] at h
    cases h

lemma resolve_visibleMatch_of_exists (docs : List Document)
    (hash kb : Nat) (u : User)
    (hex : ∃ d ∈ findDuplicates docs hash kb, isVisible d u = true) :
    ∃ v, resolveDuplicate docs hash kb u = MatchResult.VisibleMatch v ∧
      isVisible v u = true := by
  unfold resolveDuplicate
  rcases hfind : (findDuplicates docs hash kb).find?
      (fun x => isVisible x u) with _ | v
  · exfalso
    obtain ⟨d, hd, hv⟩ := hex
    exact absurd hv (by simpa using List.find?_eq_none.mp hfind d hd)
  · refine ⟨v, rfl, ?_⟩
    simpa using List.find?_some hfind

lemma tryReserve_admitted_iff (maxP : Nat) (docs : List Document)
    (uid n : Nat) :
    tryReserve maxP docs uid n = ReserveResult.Admitted ↔
      privateFileCount docs uid + n ≤ maxP := by
  unfold tryReserve
  by_cases h : privateFileCount docs uid + n ≤ maxP <;> simp [h]

lemma grant_state_cases (maxP : Nat) (docs : List Document)
    (doc : Document) (u : User) :
    (grant maxP docs doc u).2 = docs ∨
    (isVisible doc u = false ∧
      tryReserve maxP docs u.id 1 = ReserveResult.Admitted ∧
      (grant maxP docs doc u).2 = addAuthorized docs doc.id u.id) := by
  unfold grant
  by_cases hv : isVisible doc u = true
  · rw [if_pos hv]; left; rfl
  · have hv2 : isVisible doc u = false := by
      cases h : isVisible doc u
      · rfl
      · exact absurd h hv
    rw [if_neg hv]
    rcases hres : tryReserve maxP docs u.id 1 with _ | _
    · right; exact ⟨hv2, rfl, rfl⟩
    · left; rfl

lemma grant_granted_elim (maxP : Nat) (docs : List Document)
    (doc : Document) (u : User) (docs1 : List Document)
    (h : grant maxP docs doc u = (GrantResult.Granted, docs1)) :
    isVisible doc u = false ∧
      tryReserve maxP docs u.id 1 = ReserveResult.Admitted ∧
      docs1 = addAuthorized docs doc.id u.id := by
  unfold grant at h
  by_cases hv : isVisible doc u = true
  · rw [if_pos hv] at h
    simp at h
  · have hv2 : isVisible doc u = false := by
      cases hvv : isVisible doc u
      · rfl
      · exact absurd hvv hv
    rw [if_neg hv] at h
    rcases hr : tryReserve maxP docs u.id 1 with _ | _ <;> rw [hr] at h
    · simp only [Prod.mk.injEq] at h
      exact ⟨hv2, rfl, h.2.symm⟩
    · simp at h

lemma grant_alreadyAuthorized_elim (maxP : Nat) (docs : List Document)
    (doc : Document) (u : User) (docs1 : List Document)
    (h : grant maxP docs doc u = (GrantResult.AlreadyAuthorized, docs1)) :
    isVisible doc u = true ∧ docs1 = docs := by
  unfold grant at h
  by_cases hv : isVisible doc u = true
  · rw [if_pos hv] at h
    simp only [Prod.mk.injEq] at h
    exact ⟨hv, h.2.symm⟩
  · rw [if_neg hv] at h
    rcases hr : tryReserve maxP docs u.id 1 with _ | _ <;> rw [hr] at h <;>
      simp at h

lemma grant_denied_elim (maxP : Nat) (docs : List Document)
    (doc : Document) (u : User) (docs1 : List Document)
    (h : grant maxP docs doc u = (GrantResult.DeniedQuota, docs1)) :
    isVisible doc u = false ∧
      tryReserve maxP docs u.id 1 = ReserveResult.Denied ∧
      docs1 = docs := by
  unfold grant at h
  by_cases hv : isVisible doc u = true
  · rw [if_pos hv] at h
    simp at h
  · have hv2 : isVisible doc u = false := by
      cases hvv : isVisible doc u
      · rfl
      · exact absurd hvv hv
    rw [if_neg hv] at h
    rcases hr : tryReserve maxP docs u.id 1 with _ | _ <;> rw [hr] at h
    · simp at h
    · simp only [Prod.mk.injEq] at h
      exact ⟨hv2, rfl, h.2.symm⟩

lemma upload_state_cases (maxP : Nat) (docs : List Document)
    (newId : Nat) (U : User) (kb hash : Nat) (vis : Visibility)
    (force : Bool) :
    (upload maxP docs newId ⟨U, kb, hash, vis, force⟩).2 = docs ∨
    (∃ v2, (upload maxP docs newId ⟨U, kb, hash, vis, force⟩).2 =
        mkDoc newId ⟨U, kb, hash, vis, force⟩ v2 :: docs ∧
      (resolveDuplicate docs hash kb U = MatchResult.NoMatch ∨
        force = true) ∧
      (U.role = Role.admin ∨
        (v2 = Visibility.priv ∧
          tryReserve maxP docs U.id 1 = ReserveResult.Admitted))) ∨
    (∃ d, d ∈ docs ∧ isVisible d U = false ∧
      tryReserve maxP docs U.id 1 = ReserveResult.Admitted ∧
      (upload maxP docs newId ⟨U, kb, hash, vis, force⟩).2 =
        addAuthorized docs d.id U.id) := by
  unfold upload
  dsimp only
  split
  · right; left
    next hrole hres => exact ⟨vis, rfl, Or.inl hres, Or.inl hrole⟩
  · next d hrole hres =>
    by_cases hf : force = true
    · rw [if_pos hf]
      right; left
      exact ⟨vis, rfl, Or.inr hf, Or.inl hrole⟩
    · rw [if_neg hf]
      left; rfl
  · next d hrole hres =>
    by_cases hf : force = true
    · rw [if_pos hf]
      right; left
      exact ⟨vis, rfl, Or.inr hf, Or.inl hrole⟩
    · rw [if_neg hf]
      left; rfl
  · next hrole hres =>
    split
    · next hr =>
      right; left
      exact ⟨Visibility.priv, rfl, Or.inl hres, Or.inr ⟨rfl, hr⟩⟩
    · left; rfl
  · left; rfl
  · next d hrole hres =>
    obtain ⟨hmem, _, _, hvis⟩ :=
      resolve_hiddenMatch_elim docs hash kb U d hres
    split
    · next docs1 hg =>
      obtain ⟨_, hr, hd1⟩ := grant_granted_elim maxP docs d U docs1 hg
      right; right
      exact ⟨d, hmem, hvis, hr, hd1⟩
    · next docs1 hg =>
      obtain ⟨hv, _⟩ := grant_alreadyAuthorized_elim maxP docs d U docs1 hg
      rw [hv] at hvis
      cases hvis
    · next docs1 hg =>
      obtain ⟨_, _, hd1⟩ := grant_denied_elim maxP docs d U docs1 hg
      left; exact hd1

lemma resolve_noMatch_elim (docs : List Document) (hash kb : Nat)
    (u : User) (h : resolveDuplicate docs hash kb u = MatchResult.NoMatch) :
    findDuplicates docs hash kb = [] := by
  unfold resolveDuplicate at h
  rcases hfind : (findDuplicates docs hash kb).find?
      (fun x => isVisible x u) with _ | v <;> rw [hfind] at h
  · rcases hds : findDuplicates docs hash kb with _ | ⟨d0, rest⟩
    · rfl
    · rw [hds] at h; cases h
  · cases h

lemma reachable_nodup_ids (maxP : Nat) (roleOf : Nat → Role)
    (af : Bool) (docs : List Document)
    (h : Reachable maxP roleOf af docs) :
    (docs.map Document.id).Nodup := by
  induction h with
  | init => simp
  | step_upload docs uid kb hash vis force newId hfresh hforce hprev ih =>
    rcases upload_state_cases maxP docs newId ⟨uid, roleOf uid⟩ kb hash
        vis force with hcase | ⟨v2, heq, _, _⟩ | ⟨d, _, _, _, heq⟩
    · rw [hcase]; exact ih
    · rw [heq]
      simp only [List.map_cons, List.nodup_cons]
      refine ⟨?_, ih⟩
      intro hmemid
      obtain ⟨d, hd, hid⟩ := List.mem_map.mp hmemid
      exact hfresh d hd hid
    · rw [heq, addAuthorized_map_id]
      exact ih
  | step_grant docs doc uid hdoc hprev ih =>
    rcases grant_state_cases maxP docs doc ⟨uid, roleOf uid⟩ with
      hcase | ⟨_, _, heq⟩
    · rw [hcase]; exact ih
    · rw [heq, addAuthorized_map_id]
      exact ih

/-- Claim C1: in every state reachable through the engine, every
ordinary (non-admin) user's derived private-file count — documents with
private visibility that the user owns or is authorized on — is at most
`MAX_PRIVATE_FILES_PER_USER` (`maxP`); admin users are exempt (the
bound is asserted only for ids whose role is `user`, and admin-owned
documents never enter another user's count without a quota-checked
grant). -/
theorem private_quota_invariant (maxP : Nat) (roleOf : Nat → Role)
    (af : Bool) (docs : List Document)
    (h : Reachable maxP roleOf af docs)
    (uid : Nat) (huid : roleOf uid = Role.user) :
    privateFileCount docs uid ≤ maxP := by
  induction h with
  | init => simp [privateFileCount]
  | step_upload docs uid2 kb hash vis force newId hfresh hforce hprev ih =>
    rcases upload_state_cases maxP docs newId ⟨uid2, roleOf uid2⟩ kb hash
        vis force with
      hcase | ⟨v2, heq, _, hadm⟩ | ⟨d, hmem, hvis, hres, heq⟩
    · rw [hcase]; exact ih
    · rw [heq, privateFileCount_cons, countsFor_mkDoc]
      by_cases hu : uid2 = uid
      · rcases hadm with hadm | ⟨_, hres⟩
        · exfalso
          have hadm2 : roleOf uid2 = Role.admin := hadm
          rw [hu, huid] at hadm2
          cases hadm2
        · have hres2 : privateFileCount docs uid2 + 1 ≤ maxP :=
            (tryReserve_admitted_iff maxP docs uid2 1).mp hres
          rw [hu] at hres2
          split <;> omega
      · show privateFileCount docs uid +
            (if ((v2 == Visibility.priv) && (uid2 == uid)) = true then 1
             else 0) ≤ maxP
        have hcond : (uid2 == uid) = false := by simp [hu]
        rw [hcond, Bool.and_false]
        simpa using ih
    · rw [heq]
      have hres2 : privateFileCount docs uid2 + 1 ≤ maxP :=
        (tryReserve_admitted_iff maxP docs uid2 1).mp hres
      obtain ⟨_, hpriv, hown, hauth⟩ :=
        isVisible_false_elim d ⟨uid2, roleOf uid2⟩ hvis
      have hown2 : d.ownerId ≠ uid2 := hown
      have hauth2 : d.authorizedUsers.contains uid2 = false := hauth
      by_cases hu : uid2 = uid
      · subst hu
        have hnd := reachable_nodup_ids maxP roleOf af docs hprev
        have hcount := privateFileCount_addAuthorized_self docs d uid2
          hnd hmem hpriv hown2 hauth2
        have hgoal :
            privateFileCount (addAuthorized docs d.id uid2) uid2 ≤ maxP := by
          rw [hcount]; omega
        exact hgoal
      · have hother := privateFileCount_addAuthorized_other docs d.id
          uid2 uid hu
        have hgoal :
            privateFileCount (addAuthorized docs d.id uid2) uid ≤ maxP := by
          rw [hother]; exact ih
        exact hgoal
  | step_grant docs doc uid2 hdoc hprev ih =>
    rcases grant_state_cases maxP docs doc ⟨uid2, roleOf uid2⟩ with
      hcase | ⟨hvis, hres, heq⟩
    · rw [hcase]; exact ih
    · rw [heq]
      have hres2 : privateFileCount docs uid2 + 1 ≤ maxP :=
        (tryReserve_admitted_iff maxP docs uid2 1).mp hres
      obtain ⟨_, hpriv, hown, hauth⟩ :=
        isVisible_false_elim doc ⟨uid2, roleOf uid2⟩ hvis
      have hown2 : doc.ownerId ≠ uid2 := hown
      have hauth2 : doc.authorizedUsers.contains uid2 = false := hauth
      by_cases hu : uid2 = uid
      · subst hu
        have hnd := reachable_nodup_ids maxP roleOf af docs hprev
        have hcount := privateFileCount_addAuthorized_self docs doc uid2
          hnd hdoc hpriv hown2 hauth2
        have hgoal :
            privateFileCount (addAuthorized docs doc.id uid2) uid2 ≤ maxP := by
          rw [hcount]; omega
        exact hgoal
      · have hother := privateFileCount_addAuthorized_other docs doc.id
          uid2 uid hu
        have hgoal :
            privateFileCount (addAuthorized docs doc.id uid2) uid ≤ maxP := by
          rw [hother]; exact ih
        exact hgoal

/-- Witness for `private_quota_invariant`: a concrete reachable
state — an ordinary user's first upload into an empty table — satisfies
the bound with `maxP = 3`. -/
theorem private_quota_invariant_witness :
    privateFileCount
      (upload 3 [] 100
        { uploader := { id := 5, role := Role.user },
          knowledgeBaseId := 0, contentHash := 42,
          requestedVisibility := Visibility.priv,
          forceConfirm := false }).2 5 ≤ 3 :=
  private_quota_invariant 3 (fun _ => Role.user) false _
    (Reachable.step_upload [] 5 0 42 Visibility.priv false 100
      (by simp) (fun h => h) Reachable.init) 5 rfl

lemma upload_user_cases (maxP : Nat) (docs : List Document)
    (newId : Nat) (U : User) (kb hash : Nat) (vis : Visibility)
    (force : Bool) (hrole : U.role = Role.user) :
    (resolveDuplicate docs hash kb U = MatchResult.NoMatch ∧
      tryReserve maxP docs U.id 1 = ReserveResult.Admitted ∧
      upload maxP docs newId ⟨U, kb, hash, vis, force⟩ =
        (Verdict.Create
          (mkDoc newId ⟨U, kb, hash, vis, force⟩ Visibility.priv),
         mkDoc newId ⟨U, kb, hash, vis, force⟩ Visibility.priv :: docs)) ∨
    (resolveDuplicate docs hash kb U = MatchResult.NoMatch ∧
      tryReserve maxP docs U.id 1 = ReserveResult.Denied ∧
      upload maxP docs newId ⟨U, kb, hash, vis, force⟩ =
        (Verdict.Reject ErrorKind.QuotaExceeded, docs)) ∨
    (∃ d, resolveDuplicate docs hash kb U = MatchResult.VisibleMatch d ∧
      upload maxP docs newId ⟨U, kb, hash, vis, force⟩ =
        (Verdict.Reject ErrorKind.DuplicateVisibleConflict, docs)) ∨
    (∃ d, resolveDuplicate docs hash kb U = MatchResult.HiddenMatch d ∧
      tryReserve maxP docs U.id 1 = ReserveResult.Admitted ∧
      upload maxP docs newId ⟨U, kb, hash, vis, force⟩ =
        (Verdict.ReuseExisting d, addAuthorized docs d.id U.id)) ∨
    (∃ d, resolveDuplicate docs hash kb U = MatchResult.HiddenMatch d ∧
      tryReserve maxP docs U.id 1 = ReserveResult.Denied ∧
      upload maxP docs newId ⟨U, kb, hash, vis, force⟩ =
        (Verdict.Reject ErrorKind.QuotaExceeded, docs)) := by
  unfold upload
  dsimp only
  split
  · next hadm hres => rw [hrole] at hadm; cases hadm
  · next d hadm hres => rw [hrole] at hadm; cases hadm
  · next d hadm hres => rw [hrole] at hadm; cases hadm
  · next huser hres =>
    split
    · next hr => left; exact ⟨hres, hr, rfl⟩
    · next hr => right; left; exact ⟨hres, hr, rfl⟩
  · next d huser hres =>
    right; right; left
    exact ⟨d, hres, rfl⟩
  · next d huser hres =>
    split
    · next docs1 hg =>
      obtain ⟨_, hr, hd1⟩ := grant_granted_elim maxP docs d U docs1 hg
      right; right; right; left
      refine ⟨d, hres, hr, ?_⟩
      rw [hd1]
    · next docs1 hg =>
      obtain ⟨hv, _⟩ := grant_alreadyAuthorized_elim maxP docs d U docs1 hg
      obtain ⟨_, _, _, hvis⟩ := resolve_hiddenMatch_elim docs hash kb U d hres
      rw [hv] at hvis
      cases hvis
    · next docs1 hg =>
      obtain ⟨_, hr, hd1⟩ := grant_denied_elim maxP docs d U docs1 hg
      right; right; right; right
      refine ⟨d, hres, hr, ?_⟩
      rw [hd1]

/-- Claim C2: the visibility predicate `isVisible(doc, user)` returns
true iff the user's role is admin, or the document's visibility is
public, or the user owns the document, or the user id is a member of
its authorized list; it is a pure function (a plain Lean function of
its two arguments, no state). -/
theorem isVisible_spec (doc : Document) (u : User) :
    isVisible doc u = true ↔
      (u.role = Role.admin ∨ doc.visibility = Visibility.pub ∨
        doc.ownerId = u.id ∨ u.id ∈ doc.authorizedUsers) := by
  simp [isVisible, Bool.or_eq_true, beq_iff_eq, List.elem_iff, or_assoc]

/-- Claim C6: the grant operation is idempotent — when the user already
sees the document (in particular when already in its authorized list),
it returns `AlreadyAuthorized` with no mutation: the table is returned
unchanged, so every document's authorized-list size and the user's
private-file count are unchanged and no quota is charged. -/
theorem grant_idempotent (maxP : Nat) (docs : List Document)
    (doc : Document) (u : User) (hvis : isVisible doc u = true) :
    grant maxP docs doc u = (GrantResult.AlreadyAuthorized, docs) ∧
    privateFileCount (grant maxP docs doc u).2 u.id =
      privateFileCount docs u.id ∧
    (grant maxP docs doc u).2.map (fun d => d.authorizedUsers.length) =
      docs.map (fun d => d.authorizedUsers.length) := by
  have h : grant maxP docs doc u = (GrantResult.AlreadyAuthorized, docs) := by
    unfold grant
    rw [if_pos hvis]
  exact ⟨h, by rw [h], by rw [h]⟩

/-- Witness for `grant_idempotent`: a user already in the authorized
list of a private document gets `AlreadyAuthorized` and the table is
untouched. -/
theorem grant_idempotent_witness :
    isVisible ⟨1, 0, 3, 42, Visibility.priv, [5]⟩ ⟨5, Role.user⟩ = true ∧
    grant 3 [⟨1, 0, 3, 42, Visibility.priv, [5]⟩]
        ⟨1, 0, 3, 42, Visibility.priv, [5]⟩ ⟨5, Role.user⟩ =
      (GrantResult.AlreadyAuthorized,
       [⟨1, 0, 3, 42, Visibility.priv, [5]⟩]) :=
  ⟨by decide,
   (grant_idempotent 3 [⟨1, 0, 3, 42, Visibility.priv, [5]⟩]
     ⟨1, 0, 3, 42, Visibility.priv, [5]⟩ ⟨5, Role.user⟩ (by decide)).1⟩

/-- Claim C7: when the knowledge base holds more than one document with
the looked-up hash and at least one match is visible to the requesting
user, the resolver classifies the lookup as `VisibleMatch` of a visible
document — a hidden match is never selected while a visible match
exists. -/
theorem visible_match_priority (docs : List Document) (hash kb : Nat)
    (u : User)
    (hmulti : 1 < (findDuplicates docs hash kb).length)
    (hex : ∃ d ∈ findDuplicates docs hash kb, isVisible d u = true) :
    ∃ v, resolveDuplicate docs hash kb u = MatchResult.VisibleMatch v ∧
      isVisible v u = true :=
  resolve_visibleMatch_of_exists docs hash kb u hex

/-- Witness for `visible_match_priority`: two documents with the same
hash in one knowledge base, the first hidden from the requester and the
second owned by the requester; the resolver reports a visible match. -/
theorem visible_match_priority_witness :
    1 < (findDuplicates [⟨1, 0, 7, 42, Visibility.priv, []⟩,
        ⟨2, 0, 5, 42, Visibility.priv, []⟩] 42 0).length ∧
    ∃ v, resolveDuplicate [⟨1, 0, 7, 42, Visibility.priv, []⟩,
          ⟨2, 0, 5, 42, Visibility.priv, []⟩] 42 0 ⟨5, Role.user⟩ =
        MatchResult.VisibleMatch v ∧
      isVisible v ⟨5, Role.user⟩ = true :=
  ⟨by decide,
   visible_match_priority
     [⟨1, 0, 7, 42, Visibility.priv, []⟩,
      ⟨2, 0, 5, 42, Visibility.priv, []⟩] 42 0 ⟨5, Role.user⟩
     (by decide)
     ⟨⟨2, 0, 5, 42, Visibility.priv, []⟩, by decide, by decide⟩⟩

/-- Claim C3: for an ordinary user below quota, uploading content that
the resolver classifies as a hidden duplicate (an existing document in
the knowledge base with the same hash, privately owned by a different
user and not visible to the uploader) yields `ReuseExisting` of that
document, creates no new record (the table keeps its length), raises
the uploader's private-file count by exactly one, and records the
uploader in that document's authorized list. -/
theorem hidden_duplicate_grant (maxP : Nat) (docs : List Document)
    (newId : Nat) (U : User) (kb hash : Nat) (vis : Visibility)
    (force : Bool) (d : Document)
    (hrole : U.role = Role.user)
    (hnd : (docs.map Document.id).Nodup)
    (hquota : privateFileCount docs U.id < maxP)
    (hres : resolveDuplicate docs hash kb U = MatchResult.HiddenMatch d) :
    (upload maxP docs newId ⟨U, kb, hash, vis, force⟩).1 =
      Verdict.ReuseExisting d ∧
    (upload maxP docs newId ⟨U, kb, hash, vis, force⟩).2.length =
      docs.length ∧
    privateFileCount
        (upload maxP docs newId ⟨U, kb, hash, vis, force⟩).2 U.id =
      privateFileCount docs U.id + 1 ∧
    ∃ d2 ∈ (upload maxP docs newId ⟨U, kb, hash, vis, force⟩).2,
      d2.id = d.id ∧ U.id ∈ d2.authorizedUsers := by
  obtain ⟨hmem, _, _, hvis⟩ := resolve_hiddenMatch_elim docs hash kb U d hres
  rcases upload_user_cases maxP docs newId U kb hash vis force hrole with
    ⟨hres2, _, _⟩ | ⟨hres2, _, _⟩ | ⟨d0, hres2, _⟩ |
    ⟨d0, hres2, hr, hup⟩ | ⟨d0, hres2, hr, hup⟩
  · rw [hres] at hres2; cases hres2
  · rw [hres] at hres2; cases hres2
  · rw [hres] at hres2; cases hres2
  · rw [hres] at hres2
    injection hres2 with hd0
    subst hd0
    rw [hup]
    obtain ⟨_, hpriv, hown, hauth⟩ := isVisible_false_elim d U hvis
    refine ⟨rfl, addAuthorized_length docs d.id U.id,
      privateFileCount_addAuthorized_self docs d U.id hnd hmem hpriv
        hown hauth, ?_⟩
    refine ⟨{ d with authorizedUsers := U.id :: d.authorizedUsers },
      ?_, rfl, List.mem_cons_self _ _⟩
    have hmap := List.mem_map_of_mem (fun x =>
      if x.id == d.id then
        { x with authorizedUsers := U.id :: x.authorizedUsers }
      else x) hmem
    simpa [addAuthorized] using hmap
  · have hadm : tryReserve maxP docs U.id 1 = ReserveResult.Admitted :=
      (tryReserve_admitted_iff maxP docs U.id 1).mpr (by omega)
    rw [hadm] at hr
    cases hr

/-- Witness for `hidden_duplicate_grant`: user 5 (count 0, quota 3)
uploads content 42 which duplicates a private document of user 7; the
grant raises user 5's count from 0 to 1. -/
theorem hidden_duplicate_grant_witness :
    (upload 3 [⟨1, 0, 7, 42, Visibility.priv, []⟩] 100
        ⟨⟨5, Role.user⟩, 0, 42, Visibility.priv, false⟩).1 =
      Verdict.ReuseExisting ⟨1, 0, 7, 42, Visibility.priv, []⟩ ∧
    (upload 3 [⟨1, 0, 7, 42, Visibility.priv, []⟩] 100
        ⟨⟨5, Role.user⟩, 0, 42, Visibility.priv, false⟩).2.length =
      ([⟨1, 0, 7, 42, Visibility.priv, []⟩] : List Document).length ∧
    privateFileCount
        (upload 3 [⟨1, 0, 7, 42, Visibility.priv, []⟩] 100
          ⟨⟨5, Role.user⟩, 0, 42, Visibility.priv, false⟩).2 5 =
      privateFileCount [⟨1, 0, 7, 42, Visibility.priv, []⟩] 5 + 1 ∧
    ∃ d2 ∈ (upload 3 [⟨1, 0, 7, 42, Visibility.priv, []⟩] 100
        ⟨⟨5, Role.user⟩, 0, 42, Visibility.priv, false⟩).2,
      d2.id = 1 ∧ 5 ∈ d2.authorizedUsers :=
  hidden_duplicate_grant 3 [⟨1, 0, 7, 42, Visibility.priv, []⟩] 100
    ⟨5, Role.user⟩ 0 42 Visibility.priv false
    ⟨1, 0, 7, 42, Visibility.priv, []⟩ rfl (by decide) (by decide)
    (by decide)

/-- Claim C4: once an ordinary user's upload of some content into a
knowledge base has succeeded (it created a document or reused an
existing one), a second upload of the same content by the same user to
the same knowledge base returns `DuplicateVisibleConflict` and leaves
the document table exactly as it was after the first upload. -/
theorem second_upload_conflict (maxP : Nat) (docs : List Document)
    (newId1 newId2 : Nat) (U : User) (kb hash : Nat)
    (vis1 vis2 : Visibility) (f1 f2 : Bool)
    (hrole : U.role = Role.user)
    (hok : ∃ d, (upload maxP docs newId1 ⟨U, kb, hash, vis1, f1⟩).1 =
          Verdict.Create d ∨
        (upload maxP docs newId1 ⟨U, kb, hash, vis1, f1⟩).1 =
          Verdict.ReuseExisting d) :
    upload maxP (upload maxP docs newId1 ⟨U, kb, hash, vis1, f1⟩).2
        newId2 ⟨U, kb, hash, vis2, f2⟩ =
      (Verdict.Reject ErrorKind.DuplicateVisibleConflict,
       (upload maxP docs newId1 ⟨U, kb, hash, vis1, f1⟩).2) := by
  have hmain : ∃ x ∈ findDuplicates
      (upload maxP docs newId1 ⟨U, kb, hash, vis1, f1⟩).2 hash kb,
      isVisible x U = true := by
    rcases upload_user_cases maxP docs newId1 U kb hash vis1 f1 hrole with
      ⟨hres1, hr1, hup1⟩ | ⟨hres1, hr1, hup1⟩ | ⟨d0, hres1, hup1⟩ |
      ⟨d0, hres1, hr1, hup1⟩ | ⟨d0, hres1, hr1, hup1⟩
    · rw [hup1]
      refine ⟨mkDoc newId1 ⟨U, kb, hash, vis1, f1⟩ Visibility.priv, ?_, ?_⟩
      · simp [findDuplicates, mkDoc]
      · simp [isVisible, mkDoc]
    · rcases hok with ⟨d, hd | hd⟩ <;> (rw [hup1] at hd; simp at hd)
    · rcases hok with ⟨d, hd | hd⟩ <;> (rw [hup1] at hd; simp at hd)
    · obtain ⟨hmem0, hkb0, hh0, hvis0⟩ :=
        resolve_hiddenMatch_elim docs hash kb U d0 hres1
      rw [hup1]
      refine ⟨{ d0 with authorizedUsers := U.id :: d0.authorizedUsers },
        ?_, ?_⟩
      · simp only [findDuplicates]
        apply List.mem_filter.mpr
        constructor
        · have hmap := List.mem_map_of_mem (fun x =>
            if x.id == d0.id then
              { x with authorizedUsers := U.id :: x.authorizedUsers }
            else x) hmem0
          simpa [addAuthorized] using hmap
        · simp [hkb0, hh0]
      · simp [isVisible, List.contains_cons]
    · rcases hok with ⟨d, hd | hd⟩ <;> (rw [hup1] at hd; simp at hd)
  obtain ⟨v, hres2, _⟩ := resolve_visibleMatch_of_exists
    (upload maxP docs newId1 ⟨U, kb, hash, vis1, f1⟩).2 hash kb U hmain
  rcases upload_user_cases maxP
      (upload maxP docs newId1 ⟨U, kb, hash, vis1, f1⟩).2 newId2 U kb
      hash vis2 f2 hrole with
    ⟨hresB, _, _⟩ | ⟨hresB, _, _⟩ | ⟨dB, hresB, hupB⟩ |
    ⟨dB, hresB, _, _⟩ | ⟨dB, hresB, _, _⟩
  · rw [hres2] at hresB; cases hresB
  · rw [hres2] at hresB; cases hresB
  · exact hupB
  · rw [hres2] at hresB; cases hresB
  · rw [hres2] at hresB; cases hresB

/-- Witness for `second_upload_conflict`: user 5 uploads content 42
into an empty knowledge base (creating document 100), then uploads the
same content again and is rejected with `DuplicateVisibleConflict`. -/
theorem second_upload_conflict_witness :
    upload 3 (upload 3 [] 100
        ⟨⟨5, Role.user⟩, 0, 42, Visibility.priv, false⟩).2 101
      ⟨⟨5, Role.user⟩, 0, 42, Visibility.priv, false⟩ =
    (Verdict.Reject ErrorKind.DuplicateVisibleConflict,
     (upload 3 [] 100 ⟨⟨5, Role.user⟩, 0, 42, Visibility.priv, false⟩).2) :=
  second_upload_conflict 3 [] 100 101 ⟨5, Role.user⟩ 0 42
    Visibility.priv Visibility.priv false false rfl
    ⟨⟨100, 0, 5, 42, Visibility.priv, []⟩, Or.inl (by decide)⟩

/-- Claim C5: for an ordinary user whose private-file count already
equals `MAX_PRIVATE_FILES_PER_USER`, any upload that is not a visible
duplicate — fresh content, or a hidden duplicate that would need a
grant — is rejected with `QuotaExceeded` and the document table is
returned unchanged: the count keeps its value, no document is created
and no authorized-list entry is added. -/
theorem quota_exceeded_rejected (maxP : Nat) (docs : List Document)
    (newId : Nat) (U : User) (kb hash : Nat) (vis : Visibility)
    (force : Bool)
    (hrole : U.role = Role.user)
    (hcount : privateFileCount docs U.id = maxP)
    (hres : resolveDuplicate docs hash kb U = MatchResult.NoMatch ∨
      ∃ d, resolveDuplicate docs hash kb U = MatchResult.HiddenMatch d) :
    upload maxP docs newId ⟨U, kb, hash, vis, force⟩ =
      (Verdict.Reject ErrorKind.QuotaExceeded, docs) := by
  rcases upload_user_cases maxP docs newId U kb hash vis force hrole with
    ⟨_, hr, _⟩ | ⟨_, _, hup⟩ | ⟨d0, hres2, _⟩ | ⟨d0, _, hr, _⟩ |
    ⟨d0, _, _, hup⟩
  · have := (tryReserve_admitted_iff maxP docs U.id 1).mp hr
    omega
  · exact hup
  · rcases hres with hres | ⟨d, hres⟩ <;> rw [hres2] at hres <;> cases hres
  · have := (tryReserve_admitted_iff maxP docs U.id 1).mp hr
    omega
  · exact hup

/-- Witness for `quota_exceeded_rejected`: user 5 already holds three
private documents (quota 3) and uploads fresh content 99; the upload is
rejected with `QuotaExceeded` and the table is unchanged. -/
theorem quota_exceeded_rejected_witness :
    upload 3 [⟨1, 0, 5, 10, Visibility.priv, []⟩,
        ⟨2, 0, 5, 11, Visibility.priv, []⟩,
        ⟨3, 0, 5, 12, Visibility.priv, []⟩] 100
      ⟨⟨5, Role.user⟩, 0, 99, Visibility.priv, false⟩ =
    (Verdict.Reject ErrorKind.QuotaExceeded,
     [⟨1, 0, 5, 10, Visibility.priv, []⟩,
      ⟨2, 0, 5, 11, Visibility.priv, []⟩,
      ⟨3, 0, 5, 12, Visibility.priv, []⟩]) :=
  quota_exceeded_rejected 3
    [⟨1, 0, 5, 10, Visibility.priv, []⟩,
     ⟨2, 0, 5, 11, Visibility.priv, []⟩,
     ⟨3, 0, 5, 12, Visibility.priv, []⟩] 100 ⟨5, Role.user⟩ 0 99
    Visibility.priv false rfl (by decide) (Or.inl (by decide))

lemma uploadAll_cons (maxP : Nat) (u : User) (kb h : Nat)
    (rest : List Nat) (docs : List Document) (nextId : Nat) :
    uploadAll maxP u kb (h :: rest) docs nextId =
      ((upload maxP docs nextId ⟨u, kb, h, Visibility.priv, false⟩).1 ::
        (uploadAll maxP u kb rest
          (upload maxP docs nextId ⟨u, kb, h, Visibility.priv, false⟩).2
          (nextId + 1)).1,
       (uploadAll maxP u kb rest
          (upload maxP docs nextId ⟨u, kb, h, Visibility.priv, false⟩).2
          (nextId + 1)).2) := rfl

lemma uploadAll_quota_spec (maxP : Nat) (U : User) (kb : Nat)
    (hashes : List Nat) :
    ∀ (docs : List Document) (nextId : Nat),
      U.role = Role.user →
      hashes.Nodup →
      (∀ h ∈ hashes, findDuplicates docs h kb = []) →
      privateFileCount docs U.id ≤ maxP →
      ((uploadAll maxP U kb hashes docs nextId).1.countP isCreate =
        min hashes.length (maxP - privateFileCount docs U.id)) ∧
      ((uploadAll maxP U kb hashes docs nextId).1.countP isQuotaReject =
        hashes.length - (maxP - privateFileCount docs U.id)) ∧
      privateFileCount (uploadAll maxP U kb hashes docs nextId).2 U.id =
        min (privateFileCount docs U.id + hashes.length) maxP := by
  induction hashes with
  | nil =>
    intro docs nextId hrole hnodup hfresh hle
    refine ⟨?_, ?_, ?_⟩ <;> simp [uploadAll] <;> omega
  | cons h rest ih =>
    intro docs nextId hrole hnodup hfresh hle
    have hfreshh : findDuplicates docs h kb = [] :=
      hfresh h (List.mem_cons_self h rest)
    have hresolve : resolveDuplicate docs h kb U = MatchResult.NoMatch :=
      resolve_of_findDuplicates_nil docs h kb U hfreshh
    obtain ⟨hnotin, hnodrest⟩ := List.nodup_cons.mp hnodup
    rcases upload_user_cases maxP docs nextId U kb h Visibility.priv
        false hrole with
      ⟨_, hr, hup⟩ | ⟨_, hr, hup⟩ | ⟨d0, hres2, _⟩ | ⟨d0, hres2, _, _⟩ |
      ⟨d0, hres2, _, _⟩
    · have hc1 : privateFileCount docs U.id + 1 ≤ maxP :=
        (tryReserve_admitted_iff maxP docs U.id 1).mp hr
      have hcnt : privateFileCount
          (mkDoc nextId ⟨U, kb, h, Visibility.priv, false⟩
            Visibility.priv :: docs) U.id =
          privateFileCount docs U.id + 1 := by
        rw [privateFileCount_cons, countsFor_mkDoc]
        simp
      have hfresh2 : ∀ h2 ∈ rest,
          findDuplicates (mkDoc nextId ⟨U, kb, h, Visibility.priv, false⟩
            Visibility.priv :: docs) h2 kb = [] := by
        intro h2 hh2
        have hne : h ≠ h2 := fun hEq => hnotin (hEq ▸ hh2)
        have hrest := hfresh h2 (List.mem_cons_of_mem h hh2)
        simp only [findDuplicates, List.filter_cons] at hrest ⊢
        simp [mkDoc, hne, hrest]
      obtain ⟨IH1, IH2, IH3⟩ :=
        ih (mkDoc nextId ⟨U, kb, h, Visibility.priv, false⟩
            Visibility.priv :: docs) (nextId + 1) hrole hnodrest hfresh2
          (by rw [hcnt]; exact hc1)
      rw [hcnt] at IH1 IH2 IH3
      refine ⟨?_, ?_, ?_⟩
      · rw [uploadAll_cons, hup]
        dsimp only
        rw [List.countP_cons, IH1]
        simp only [isCreate, List.length_cons, if_true, if_false,
          Bool.false_eq_true, Nat.add_zero]
        omega
      · rw [uploadAll_cons, hup]
        dsimp only
        rw [List.countP_cons, IH2]
        simp only [isQuotaReject, List.length_cons, if_true, if_false,
          Bool.false_eq_true, Nat.add_zero]
        omega
      · rw [uploadAll_cons, hup]
        dsimp only
        rw [IH3]
        simp only [List.length_cons]
        omega
    · have hdenied : ¬ (privateFileCount docs U.id + 1 ≤ maxP) := by
        intro hcle
        rw [(tryReserve_admitted_iff maxP docs U.id 1).mpr hcle] at hr
        cases hr
      have hfresh2 : ∀ h2 ∈ rest, findDuplicates docs h2 kb = [] :=
        fun h2 hh2 => hfresh h2 (List.mem_cons_of_mem h hh2)
      obtain ⟨IH1, IH2, IH3⟩ :=
        ih docs (nextId + 1) hrole hnodrest hfresh2 hle
      refine ⟨?_, ?_, ?_⟩
      · rw [uploadAll_cons, hup]
        dsimp only
        rw [List.countP_cons, IH1]
        simp only [isCreate, List.length_cons, if_true, if_false,
          Bool.false_eq_true, Nat.add_zero]
        omega
      · rw [uploadAll_cons, hup]
        dsimp only
        rw [List.countP_cons, IH2]
        simp only [isQuotaReject, List.length_cons, if_true, if_false,
          Bool.false_eq_true, Nat.add_zero]
        omega
      · rw [uploadAll_cons, hup]
        dsimp only
        rw [IH3]
        simp only [List.length_cons]
        omega
    · rw [hresolve] at hres2; cases hres2
    · rw [hresolve] at hres2; cases hres2
    · rw [hresolve] at hres2; cases hres2

/-- Claim C9: with `K = maxP - PrivateFileCount(U)` free slots and
`N > K` uploads of pairwise-distinct fresh contents by ordinary user
`U`, exactly `K` of them produce `Create` and the remaining `N - K` are
rejected with `QuotaExceeded`, for every arrival order (the list
`hashes` ranges over all orders; section 5 makes the quota check and
its consuming mutation one atomic unit, so concurrent interleavings
linearize to such orders), and afterwards the count equals `maxP`. -/
theorem concurrent_uploads_fill_quota (maxP : Nat) (U : User) (kb : Nat)
    (hashes : List Nat) (docs : List Document) (nextId : Nat)
    (hrole : U.role = Role.user)
    (hnodup : hashes.Nodup)
    (hfresh : ∀ h ∈ hashes, findDuplicates docs h kb = [])
    (hle : privateFileCount docs U.id ≤ maxP)
    (hN : maxP - privateFileCount docs U.id < hashes.length) :
    (uploadAll maxP U kb hashes docs nextId).1.countP isCreate =
      maxP - privateFileCount docs U.id ∧
    (uploadAll maxP U kb hashes docs nextId).1.countP isQuotaReject =
      hashes.length - (maxP - privateFileCount docs U.id) ∧
    privateFileCount (uploadAll maxP U kb hashes docs nextId).2 U.id =
      maxP := by
  obtain ⟨h1, h2, h3⟩ := uploadAll_quota_spec maxP U kb hashes docs
    nextId hrole hnodup hfresh hle
  refine ⟨?_, h2, ?_⟩
  · rw [h1]; omega
  · rw [h3]; omega

/-- Witness for `concurrent_uploads_fill_quota`: user 5 holds 2 of 3
slots and fires two uploads of distinct fresh contents 10 and 11;
exactly one creates, one is rejected with `QuotaExceeded`, and the
count ends at 3. -/
theorem concurrent_uploads_fill_quota_witness :
    (uploadAll 3 ⟨5, Role.user⟩ 0 [10, 11]
        [⟨1, 0, 5, 20, Visibility.priv, []⟩,
         ⟨2, 0, 5, 21, Visibility.priv, []⟩] 100).1.countP isCreate = 1 ∧
    (uploadAll 3 ⟨5, Role.user⟩ 0 [10, 11]
        [⟨1, 0, 5, 20, Visibility.priv, []⟩,
         ⟨2, 0, 5, 21, Visibility.priv, []⟩] 100).1.countP
      isQuotaReject = 1 ∧
    privateFileCount
      (uploadAll 3 ⟨5, Role.user⟩ 0 [10, 11]
        [⟨1, 0, 5, 20, Visibility.priv, []⟩,
         ⟨2, 0, 5, 21, Visibility.priv, []⟩] 100).2 5 = 3 :=
  concurrent_uploads_fill_quota 3 ⟨5, Role.user⟩ 0 [10, 11]
    [⟨1, 0, 5, 20, Visibility.priv, []⟩,
     ⟨2, 0, 5, 21, Visibility.priv, []⟩] 100 rfl (by decide) (by decide)
    (by decide) (by decide)

/-- Claim C8 counterexample: the claimed storage-layer uniqueness
constraint does not exist.  The migration in
`MD5_DUPLICATION_README.md` declares exactly one index,
`idx_document_md5_hash` — a plain (non-unique) index on the single
column `md5_hash` — so no declared index is unique, and none covers
`(knowledge_base_id, md5_hash)`. -/
theorem no_storage_unique_constraint :
    DocumentSchema.idx_document_md5_hash.isUnique = false ∧
    DocumentSchema.idx_document_md5_hash.columns = ["md5_hash"] ∧
    DocumentSchema.documentMigrationIndexes.all
        (fun i => !(i.isUnique)) = true ∧
    DocumentSchema.documentMigrationIndexes.any
        (fun i => DocumentSchema.enforcesUniqueOn i
          ["knowledge_base_id", "md5_hash"]) = false :=
  ⟨rfl, rfl, rfl, rfl⟩

/-- Claim C8 (amended): in every state reachable through the engine
without the admin forced-duplicate confirmation path, no two documents
in the same knowledge base share a content hash; this uniqueness is
guaranteed by the application-level duplicate check alone — the storage
layer only declares the plain non-unique index modelled in
`DocumentSchema`. -/
theorem unique_hash_per_kb (maxP : Nat) (roleOf : Nat → Role)
    (docs : List Document) (h : Reachable maxP roleOf false docs) :
    docs.Pairwise (fun d1 d2 =>
      d1.knowledgeBaseId = d2.knowledgeBaseId →
        d1.contentHash ≠ d2.contentHash) := by
  induction h with
  | init => simp
  | step_upload docs uid kb hash vis force newId hfresh hforce hprev ih =>
    have hforce2 : force = false := by
      cases hf : force
      · rfl
      · cases hforce hf
    rcases upload_state_cases maxP docs newId ⟨uid, roleOf uid⟩ kb hash
        vis force with hcase | ⟨v2, heq, hnm, _⟩ | ⟨d, _, _, _, heq⟩
    · rw [hcase]; exact ih
    · rcases hnm with hres | hf
      · rw [heq, List.pairwise_cons]
        refine ⟨?_, ih⟩
        intro d0 hd0 hkb0 hhash0
        have hfd := resolve_noMatch_elim docs hash kb
          ⟨uid, roleOf uid⟩ hres
        have hnd0 := List.filter_eq_nil_iff.mp hfd d0 hd0
        have hkb1 : kb = d0.knowledgeBaseId := hkb0
        have hh1 : hash = d0.contentHash := hhash0
        apply hnd0
        simp [hkb1.symm, hh1.symm]
      · rw [hforce2] at hf; cases hf
    · rw [heq]
      unfold addAuthorized
      refine List.Pairwise.map _ ?_ ih
      intro a b hab
      dsimp only
      obtain ⟨hka, hha⟩ :=
        addAuthorized_fields a d.id (⟨uid, roleOf uid⟩ : User).id
      obtain ⟨hkb2, hhb⟩ :=
        addAuthorized_fields b d.id (⟨uid, roleOf uid⟩ : User).id
      intro hkbeq
      rw [hka, hkb2] at hkbeq
      intro hhasheq
      rw [hha, hhb] at hhasheq
      exact hab hkbeq hhasheq
  | step_grant docs doc uid hdoc hprev ih =>
    rcases grant_state_cases maxP docs doc ⟨uid, roleOf uid⟩ with
      hcase | ⟨_, _, heq⟩
    · rw [hcase]; exact ih
    · rw [heq]
      unfold addAuthorized
      refine List.Pairwise.map _ ?_ ih
      intro a b hab
      dsimp only
      obtain ⟨hka, hha⟩ :=
        addAuthorized_fields a doc.id (⟨uid, roleOf uid⟩ : User).id
      obtain ⟨hkb2, hhb⟩ :=
        addAuthorized_fields b doc.id (⟨uid, roleOf uid⟩ : User).id
      intro hkbeq
      rw [hka, hkb2] at hkbeq
      intro hhasheq
      rw [hha, hhb] at hhasheq
      exact hab hkbeq hhasheq

/-- Witness for `unique_hash_per_kb`: the concrete state reached by
one ordinary-user upload into an empty table satisfies per-knowledge-
base hash uniqueness. -/
theorem unique_hash_per_kb_witness :
    List.Pairwise (fun d1 d2 : Document =>
      d1.knowledgeBaseId = d2.knowledgeBaseId →
        d1.contentHash ≠ d2.contentHash)
      (upload 3 [] 100
        { uploader := { id := 5, role := Role.user },
          knowledgeBaseId := 0, contentHash := 42,
          requestedVisibility := Visibility.priv,
          forceConfirm := false }).2 :=
  unique_hash_per_kb 3 (fun _ => Role.user) _
    (Reachable.step_upload [] 5 0 42 Visibility.priv false 100
      (by simp) (fun h => h) Reachable.init)

end DedupEngine

namespace UploadFrontend

open DedupEngine

lemma selectVisibility_nonadmin_priv (v : Visibility) :
    selectVisibility false Visibility.priv v = Visibility.priv := by
  cases v <;> rfl

lemma foldl_selectVisibility_nonadmin (clicks : List Visibility) :
    clicks.foldl (selectVisibility false) Visibility.priv =
      Visibility.priv := by
  induction clicks with
  | nil => rfl
  | cons c rest ih =>
    rw [List.foldl_cons, selectVisibility_nonadmin_priv]
    exact ih

/-- Claim C10: every upload request produced through the file-upload
interface by a non-admin user carries visibility `private`: whatever
sequence of radio clicks the user performs, the submitted value is
`private` (the `public` radio is disabled for non-admins, so clicking
it changes nothing), the initial selection is `private`, and the upload
hook substitutes `private` whenever no visibility value is supplied. -/
theorem nonadmin_upload_visibility_private :
    (∀ clicks : List Visibility,
      uploadVisibility (some (modalVisibilityAfter false clicks)) =
        Visibility.priv) ∧
    publicOptionDisabled false = true ∧
    initialFileVisibility false = Visibility.priv ∧
    uploadVisibility none = Visibility.priv := by
  refine ⟨?_, rfl, rfl, rfl⟩
  intro clicks
  have h : modalVisibilityAfter false clicks = Visibility.priv := by
    unfold modalVisibilityAfter
    rw [show initialFileVisibility false = Visibility.priv from rfl]
    exact foldl_selectVisibility_nonadmin clicks
  rw [h]
  rfl

end UploadFrontend
